import Mathlib

/-!
# Verification of the CHIP-8 interpreter core (src/chip8.c)

Shallow embedding of the interpreter state (`chip8_t`) and of
`emulate_instruction`, faithful to the C source:

* `uint8_t` / `uint16_t` cells are modelled as `Nat`; a store of a value that
  the C type system would convert (int → unsigned) is reduced `% 256`
  (resp. `% 65536`) at the store, which is exactly C's unsigned-conversion
  semantics; stores of values already within range are kept unmasked, as in
  the source.
* The two `uint8_t` subtractions (`8XY5`, `8XY7`) go through `Int` and
  `% 256` (`Int.emod` is Euclidean, so the result is the C unsigned
  conversion of the possibly negative difference).
* `rand()` is modelled by an extra `Nat` argument `rnd`; the source computes
  `(rand() % 256) & NN`.
* The stack pointer (`uint16_t *stack_pointer`, initialised to `&stack[0]`)
  is modelled as an `Int` offset into `stack : Int → Nat`, so that the
  unchecked `*--stack_pointer` of the source is visible as an access at a
  negative offset.
* Bit operations on bytes are written arithmetically: `& 1` is `% 2`,
  `>> 1` is `/ 2`, `<< 1` is `* 2`, `(v & 0x80) >> 7` is `v / 128 % 2`,
  `& 0x0FFF` is `% 4096`, `& 0x00FF` is `% 256`, `& 0x0F` is `% 16`,
  and `v & (1 << j) != 0` is `Nat.testBit v j`.
* `config.window_width` and `config.window_height` are the defaults set by
  `set_config_from_args` (64 and 32); no command-line override exists.
-/

/-! ## Data model and embedded operations -/

/-- The machine state, from `chip8_t` in src/chip8.c (the SDL handle, the
`state` enum, the rom name and the ephemeral `inst` decode record carry no
interpreter semantics and are not part of the claims). -/
@[ext]
structure Chip8 where
  ram : Nat → Nat
  display : Nat → Bool
  stack : Int → Nat
  sp : Int
  V : Nat → Nat
  I : Nat
  PC : Nat
  delay_timer : Nat
  sound_timer : Nat
  keypad : Nat → Bool

/-- Decoded field `NNN`: the source computes `opcode & 0x0FFF`. -/
def opNNN (op : Nat) : Nat := op % 4096

/-- Decoded field `NN`: the source computes `opcode & 0x0FF`. -/
def opNN (op : Nat) : Nat := op % 256

/-- Decoded field `N`: the source computes `opcode & 0x0F`. -/
def opN (op : Nat) : Nat := op % 16

/-- Decoded field `X`: the source computes `(opcode >> 8) & 0x0F`. -/
def opX (op : Nat) : Nat := op / 256 % 16

/-- Decoded field `Y`: the source computes `(opcode >> 4) & 0x0F`. -/
def opY (op : Nat) : Nat := op / 16 % 16

/-- Scrutinee of the big dispatch switch: `(opcode >> 12) & 0x0F`. -/
def opT (op : Nat) : Nat := op / 4096 % 16

/-- The keypad scan of opcode `FX0A`: `for(i = 0; i < 16; i++)` stopping at
the first pressed key. Returns `some i` for the first `i` with
`keypad[i]`, `none` when no key is pressed. -/
def findKeyFrom (kp : Nat → Bool) (i : Nat) : Option Nat :=
  if h : i < 16 then
    if kp i then some i else findKeyFrom kp (i + 1)
  else none
termination_by 16 - i

/-- Inner loop of `DXYN`: `for(int8_t j = 7; j >= 0; j--)` drawing bit `j`
of the sprite row at column `x` of screen row `y`, then
`if(++X_coord >= config.window_width) break;`.  Returns the new display
and the new value of the carry register `V[0xF]`. -/
def drawRowBits (s y x : Nat) (j : Nat) (disp : Nat → Bool) (vf : Nat) :
    (Nat → Bool) × Nat :=
  let idx := y * 64 + x
  let sbit := Nat.testBit s j
  let vf1 := if sbit && disp idx then 1 else vf
  let disp1 := Function.update disp idx (Bool.xor (disp idx) sbit)
  if 64 ≤ x + 1 then (disp1, vf1)
  else
    match j with
    | 0 => (disp1, vf1)
    | j' + 1 => drawRowBits s y (x + 1) j' disp1 vf1

/-- Outer loop of `DXYN`: `for(uint8_t i = 0; i < chip8->inst.N; i++)`,
reading sprite row `ram[I + i]`, resetting the column to `orig_X`, drawing
the row, then `if(++Y_coord >= config.window_height) break;`. -/
def drawRows (ram : Nat → Nat) (I x0 : Nat) (i N y : Nat)
    (disp : Nat → Bool) (vf : Nat) : (Nat → Bool) × Nat :=
  if h : i < N then
    let s := ram (I + i) % 256
    let r := drawRowBits s y x0 7 disp vf
    if 32 ≤ y + 1 then r
    else drawRows ram I x0 (i + 1) N (y + 1) r.1 r.2
  else (disp, vf)
termination_by N - i

/-- Dispatch arm `case 0x00`: clear screen when `NNN == 0xE0`, return
from subroutine when `NN == 0xEE` (note the asymmetry: the full 12-bit
`NNN` is compared for clear, only the low byte `NN` for return), silently
nothing otherwise. -/
def exec0 (op : Nat) (c : Chip8) : Chip8 :=
  if opNNN op = 0xE0 then { c with display := fun _ => false }
  else if opNN op = 0xEE then { c with PC := c.stack (c.sp - 1), sp := c.sp - 1 }
  else c

/-- Dispatch arm `case 0x01`: jump, `PC = NNN`. -/
def exec1 (op : Nat) (c : Chip8) : Chip8 :=
  { c with PC := opNNN op }

/-- Dispatch arm `case 0x02`: call, `*stack_pointer++ = PC; PC = NNN` (no bounds check). -/
def exec2 (op : Nat) (c : Chip8) : Chip8 :=
  { c with stack := Function.update c.stack c.sp c.PC, sp := c.sp + 1, PC := opNNN op }

/-- Dispatch arm `case 0x03`: skip next instruction if `VX == NN`. -/
def exec3 (op : Nat) (c : Chip8) : Chip8 :=
  if c.V (opX op) = opNN op then { c with PC := (c.PC + 2) % 65536 } else c

/-- Dispatch arm `case 0x04`: skip next instruction if `VX != NN`. -/
def exec4 (op : Nat) (c : Chip8) : Chip8 :=
  if c.V (opX op) ≠ opNN op then { c with PC := (c.PC + 2) % 65536 } else c

/-- Dispatch arm `case 0x05`: skip next instruction if `VX == VY` (the low nibble is not
inspected). -/
def exec5 (op : Nat) (c : Chip8) : Chip8 :=
  if c.V (opX op) = c.V (opY op) then { c with PC := (c.PC + 2) % 65536 } else c

/-- Dispatch arm `case 0x06`: `VX = NN`. -/
def exec6 (op : Nat) (c : Chip8) : Chip8 :=
  { c with V := Function.update c.V (opX op) (opNN op) }

/-- Dispatch arm `case 0x07`: `VX += NN` (uint8_t store, no flag effect). -/
def exec7 (op : Nat) (c : Chip8) : Chip8 :=
  { c with V := Function.update c.V (opX op) ((c.V (opX op) + opNN op) % 256) }

/-- Dispatch arm `case 0x08`, the sub-switch (dispatch on `N`).  In the flag-setting arms the
source sets the flag first (`if(...) V[0xF] = 1;` with no write in the
other case) and then stores the arithmetic result. -/
def exec8 (op : Nat) (c : Chip8) : Chip8 :=
  if opN op = 0 then { c with V := Function.update c.V (opX op) (c.V (opY op)) }
  else if opN op = 1 then
    { c with V := Function.update c.V (opX op) (c.V (opX op) ||| c.V (opY op)) }
  else if opN op = 2 then
    { c with V := Function.update c.V (opX op) (c.V (opX op) &&& c.V (opY op)) }
  else if opN op = 3 then
    { c with V := Function.update c.V (opX op) (c.V (opX op) ^^^ c.V (opY op)) }
  else if opN op = 4 then
    let c1 := if 255 < c.V (opX op) + c.V (opY op) then
      { c with V := Function.update c.V 15 1 } else c
    { c1 with V := Function.update c1.V (opX op) ((c1.V (opX op) + c1.V (opY op)) % 256) }
  else if opN op = 5 then
    let c1 := if c.V (opY op) ≤ c.V (opX op) then
      { c with V := Function.update c.V 15 1 } else c
    { c1 with
      V := Function.update c1.V (opX op) ((((c1.V (opX op) : Int) - c1.V (opY op)) % 256).toNat) }
  else if opN op = 6 then
    let c1 := { c with V := Function.update c.V 15 (c.V (opX op) % 2) }
    { c1 with V := Function.update c1.V (opX op) (c1.V (opX op) / 2) }
  else if opN op = 7 then
    let c1 := if c.V (opX op) ≤ c.V (opY op) then
      { c with V := Function.update c.V 15 1 } else c
    { c1 with
      V := Function.update c1.V (opX op) ((((c1.V (opY op) : Int) - c1.V (opX op)) % 256).toNat) }
  else if opN op = 14 then
    let c1 := { c with V := Function.update c.V 15 (c.V (opX op) / 128 % 2) }
    { c1 with V := Function.update c1.V (opX op) (c1.V (opX op) * 2 % 256) }
  else c

/-- Dispatch arm `case 0x09`: skip next instruction if `VX != VY` (the low nibble is not
inspected). -/
def exec9 (op : Nat) (c : Chip8) : Chip8 :=
  if c.V (opX op) ≠ c.V (opY op) then { c with PC := (c.PC + 2) % 65536 } else c

/-- Dispatch arm `case 0x0A`: `I = NNN`. -/
def execA (op : Nat) (c : Chip8) : Chip8 :=
  { c with I := opNNN op }

/-- Dispatch arm `case 0x0B`: `PC = NNN + V0` (uint16_t store). -/
def execB (op : Nat) (c : Chip8) : Chip8 :=
  { c with PC := (opNNN op + c.V 0) % 65536 }

/-- Dispatch arm `case 0x0C`: `VX = (rand() % 256) & NN`. -/
def execC (rnd op : Nat) (c : Chip8) : Chip8 :=
  { c with V := Function.update c.V (opX op) (rnd % 256 &&& opNN op) }

/-- Dispatch arm `case 0x0D`: the sprite draw.  `X_coord = V[X] % 64`,
`Y_coord = V[Y] % 32`, `V[0xF] = 0`, then the two clipping loops. -/
def execD (op : Nat) (c : Chip8) : Chip8 :=
  let r := drawRows c.ram c.I (c.V (opX op) % 64) 0 (opN op) (c.V (opY op) % 32) c.display 0
  { c with display := r.1, V := Function.update c.V 15 r.2 }

/-- Dispatch arm `case 0x0E`: skip on key state; `NN == 0x9E` skips when `keypad[VX]` is
pressed, `NN == 0xA1` when it is not. -/
def execE (op : Nat) (c : Chip8) : Chip8 :=
  if opNN op = 0x9E then
    if c.keypad (c.V (opX op)) then { c with PC := (c.PC + 2) % 65536 } else c
  else if opNN op = 0xA1 then
    if c.keypad (c.V (opX op)) then c else { c with PC := (c.PC + 2) % 65536 }
  else c

/-- Dispatch arm `case 0x0F`, the sub-switch (dispatch on `NN`). -/
def execF (op : Nat) (c : Chip8) : Chip8 :=
  if opNN op = 0x0A then
    match findKeyFrom c.keypad 0 with
    | some k => { c with V := Function.update c.V (opX op) k }
    | none => { c with PC := (c.PC + 65534) % 65536 }  -- chip8->PC -= 2 on uint16_t
  else if opNN op = 0x1E then { c with I := (c.I + c.V (opX op)) % 65536 }
  else if opNN op = 0x07 then { c with V := Function.update c.V (opX op) c.delay_timer }
  else if opNN op = 0x15 then { c with delay_timer := c.V (opX op) }
  else if opNN op = 0x18 then { c with sound_timer := c.V (opX op) }
  else if opNN op = 0x29 then { c with I := c.V (opX op) * 5 % 65536 }
  else c

/-- The opcode dispatch of `emulate_instruction` (the big switch on
`(opcode >> 12) & 0x0F`), applied to the state whose `PC` has already been
advanced past the instruction; one definition per `case` arm above, and the
final `else c` is the silent `default: break`. -/
def execOpcode (rnd : Nat) (op : Nat) (c : Chip8) : Chip8 :=
  if opT op = 0 then exec0 op c
  else if opT op = 1 then exec1 op c
  else if opT op = 2 then exec2 op c
  else if opT op = 3 then exec3 op c
  else if opT op = 4 then exec4 op c
  else if opT op = 5 then exec5 op c
  else if opT op = 6 then exec6 op c
  else if opT op = 7 then exec7 op c
  else if opT op = 8 then exec8 op c
  else if opT op = 9 then exec9 op c
  else if opT op = 10 then execA op c
  else if opT op = 11 then execB op c
  else if opT op = 12 then execC rnd op c
  else if opT op = 13 then execD op c
  else if opT op = 14 then execE op c
  else if opT op = 15 then execF op c
  else c

/-- The opcode fetch: `(chip8->ram[chip8->PC] << 8) | chip8->ram[chip8->PC+1]`
(the `% 256` is the `uint8_t` type of the ram cells). -/
def fetch (c : Chip8) : Nat :=
  c.ram c.PC % 256 * 256 + c.ram (c.PC + 1) % 256

/-- The function `emulate_instruction` of the source: fetch, `PC += 2` (uint16_t), decode, dispatch. -/
def emulate_instruction (rnd : Nat) (c : Chip8) : Chip8 :=
  execOpcode rnd (fetch c) { c with PC := (c.PC + 2) % 65536 }

/-- A run of consecutive `emulate_instruction` calls, one random draw per
step. -/
def runSteps : List Nat → Chip8 → Chip8
  | [], c => c
  | r :: rs, c => runSteps rs (emulate_instruction r c)

/-- Modelled from the spec: the 60 Hz timer tick is absent from src/chip8.c —
only the `chip8_t` field comments (src/chip8.c:49-50, "Decrements at 60hz
when > 0") document it, and the main loop never decrements either timer.
Spec §4.3: "for each of delay_timer and sound_timer, if > 0 decrement
by 1". -/
def tick (c : Chip8) : Chip8 :=
  let c1 := if 0 < c.delay_timer then { c with delay_timer := c.delay_timer - 1 } else c
  if 0 < c1.sound_timer then { c1 with sound_timer := c1.sound_timer - 1 } else c1

/-- The standard CHIP-8 font table loaded by `init_chip8` at address 0. -/
def fontData : List Nat :=
  [0xF0, 0x90, 0x90, 0x90, 0xF0,
   0x20, 0x60, 0x20, 0x20, 0x70,
   0xF0, 0x10, 0xF0, 0x80, 0xF0,
   0xF0, 0x10, 0xF0, 0x10, 0xF0,
   0x90, 0x90, 0xF0, 0x10, 0x10,
   0xF0, 0x80, 0xF0, 0x10, 0xF0,
   0xF0, 0x80, 0xF0, 0x90, 0xF0,
   0xF0, 0x10, 0x20, 0x40, 0x40,
   0xF0, 0x90, 0xF0, 0x90, 0xF0,
   0xF0, 0x90, 0xF0, 0x10, 0xF0,
   0xF0, 0x90, 0xF0, 0x90, 0x90,
   0xE0, 0x90, 0xE0, 0x90, 0xE0,
   0xF0, 0x80, 0x80, 0x80, 0xF0,
   0xE0, 0x90, 0x90, 0x90, 0xE0,
   0xF0, 0x80, 0xF0, 0x80, 0xF0,
   0xF0, 0x80, 0xF0, 0x80, 0x80]

/-- The function `init_chip8` applied to a zero-initialised `chip8_t`: font at 0, program bytes at
0x200, `PC = 0x200`, stack pointer at `&stack[0]`. -/
def initChip8 (prog : List Nat) : Chip8 :=
  { ram := fun a =>
      if a < 80 then fontData.getD a 0
      else if 0x200 ≤ a then prog.getD (a - 0x200) 0
      else 0
    display := fun _ => false
    stack := fun _ => 0
    sp := 0
    V := fun _ => 0
    I := 0
    PC := 0x200
    delay_timer := 0
    sound_timer := 0
    keypad := fun _ => false }

/-- States reachable from `c0` by repeated `emulate_instruction` steps. -/
inductive Reach (c0 : Chip8) : Chip8 → Prop
  | refl : Reach c0 c0
  | next (rnd : Nat) {c : Chip8} : Reach c0 c → Reach c0 (emulate_instruction rnd c)

/-- The opcodes that reach a default / empty branch of the dispatch in
`emulate_instruction` — the source's silent no-ops.  Top nibble 0 falls
through only when `NNN != 0xE0` and `NN != 0xEE`; families 8, E and F fall
through outside their handled sub-cases; every other family is always
handled (note that families 5 and 9 dispatch without inspecting `N`). -/
def unhandled (op : Nat) : Bool :=
  (opT op == 0 && !(opNNN op == 0xE0) && !(opNN op == 0xEE)) ||
  (opT op == 8 && !(opN op == 0 || opN op == 1 || opN op == 2 || opN op == 3 ||
                    opN op == 4 || opN op == 5 || opN op == 6 || opN op == 7 ||
                    opN op == 14)) ||
  (opT op == 14 && !(opNN op == 0x9E || opNN op == 0xA1)) ||
  (opT op == 15 && !(opNN op == 0x0A || opNN op == 0x1E || opNN op == 0x07 ||
                     opNN op == 0x15 || opNN op == 0x18 || opNN op == 0x29))

/-- State whose next opcode is `0x8014` (8XY4 with X=0, Y=1), with
`V0 = 0`, `V1 = 0` and `VF = 1`. -/
def stC2 : Chip8 :=
  { ram := fun a => if a = 0x100 then 0x80 else if a = 0x101 then 0x14 else 0
    display := fun _ => false, stack := fun _ => 0, sp := 0
    V := fun i => if i = 15 then 1 else 0
    I := 0, PC := 0x100, delay_timer := 0, sound_timer := 0
    keypad := fun _ => false }

/-- State whose next opcode is `0x8015` (8XY5 with X=0, Y=1), with
`V0 = 0`, `V1 = 1` and `VF = 1` (a borrow case). -/
def stC3a : Chip8 :=
  { ram := fun a => if a = 0x100 then 0x80 else if a = 0x101 then 0x15 else 0
    display := fun _ => false, stack := fun _ => 0, sp := 0
    V := fun i => if i = 15 then 1 else if i = 1 then 1 else 0
    I := 0, PC := 0x100, delay_timer := 0, sound_timer := 0
    keypad := fun _ => false }

/-- State whose next opcode is `0x8017` (8XY7 with X=0, Y=1), with
`V0 = 1`, `V1 = 0` and `VF = 1` (a borrow case for `VY - VX`). -/
def stC3b : Chip8 :=
  { ram := fun a => if a = 0x100 then 0x80 else if a = 0x101 then 0x17 else 0
    display := fun _ => false, stack := fun _ => 0, sp := 0
    V := fun i => if i = 15 then 1 else if i = 0 then 1 else 0
    I := 0, PC := 0x100, delay_timer := 0, sound_timer := 0
    keypad := fun _ => false }

/-- State whose next opcode is `0x01EE` (top nibble 0, not 00E0, not 00EE),
with one return address 0x300 on the stack. -/
def stC5 : Chip8 :=
  { ram := fun a => if a = 0x100 then 0x01 else if a = 0x101 then 0xEE else 0
    display := fun _ => false
    stack := fun i => if i = 0 then 0x300 else 0, sp := 1
    V := fun _ => 0, I := 0, PC := 0x100, delay_timer := 0, sound_timer := 0
    keypad := fun _ => false }

/-- State whose next opcode is `0x0000`, an unrecognized opcode. -/
def stC5w : Chip8 :=
  { ram := fun _ => 0
    display := fun _ => false, stack := fun _ => 0, sp := 0
    V := fun _ => 0, I := 0, PC := 0x100, delay_timer := 0, sound_timer := 0
    keypad := fun _ => false }

/-- State whose next opcode is `0x2300` (call 0x300) with the 12-entry stack
already full (`sp = 12`); slot 12 holds 0 before the call. -/
def stC8 : Chip8 :=
  { ram := fun a => if a = 0x100 then 0x23 else 0
    display := fun _ => false, stack := fun _ => 0, sp := 12
    V := fun _ => 0, I := 0, PC := 0x100, delay_timer := 0, sound_timer := 0
    keypad := fun _ => false }

/-- State whose next opcode is `0x00EE` (return) with an empty stack
(`sp = 0`). -/
def stC8e : Chip8 :=
  { ram := fun a => if a = 0x100 then 0x00 else if a = 0x101 then 0xEE else 0
    display := fun _ => false
    stack := fun i => if i = -1 then 0x7777 else 0, sp := 0
    V := fun _ => 0, I := 0, PC := 0x100, delay_timer := 0, sound_timer := 0
    keypad := fun _ => false }

/-- State whose next opcode is `0x2300` (call 0x300) at PC = 0x200 with an
empty stack, and whose ram holds `0x00EE` (return) at 0x300. -/
def stC7 : Chip8 :=
  { ram := fun a =>
      if a = 0x200 then 0x23 else if a = 0x201 then 0x00
      else if a = 0x300 then 0x00 else if a = 0x301 then 0xEE else 0
    display := fun _ => false, stack := fun _ => 0, sp := 0
    V := fun _ => 0, I := 0, PC := 0x200, delay_timer := 0, sound_timer := 0
    keypad := fun _ => false }

/-- State whose next opcode is `0xF50A` (FX0A with X = 5) at PC = 0x100, no
key pressed. -/
def stC6 : Chip8 :=
  { ram := fun a => if a = 0x100 then 0xF5 else if a = 0x101 then 0x0A else 0
    display := fun _ => false, stack := fun _ => 0, sp := 0
    V := fun _ => 0, I := 0, PC := 0x100, delay_timer := 0, sound_timer := 0
    keypad := fun _ => false }

/-- The invariant that actually holds of the program counter: it is a
`uint16_t`, so it always stays below 2^16; pushed return addresses stay
below 2^16 as well. -/
def PCStackInv (c : Chip8) : Prop :=
  c.PC < 65536 ∧ ∀ i : Int, c.stack i < 65536

/-- The drawing contract of `DXYN` (claim C1), stated of the dispatch applied
to the already-advanced state: drawing starts at
`(VX mod 64, VY mod 32)`; `min N (32 - y0)` sprite rows (bytes at
`I..`) are drawn, clipped at the bottom edge; each row XORs
`min 8 (64 - x0)` display cells with the row's bits taken
most-significant first, clipped at the right edge; every other cell is
untouched; and `VF` ends 1 exactly when some drawn sprite bit meets a set
display cell, 0 otherwise (it is zeroed before drawing, so a stale 1
never survives). -/
def DrawSpec (rnd op : Nat) (c : Chip8) : Prop :=
  (∀ r, r < min (opN op) (32 - c.V (opY op) % 32) →
    ∀ cc, cc < min 8 (64 - c.V (opX op) % 64) →
      (execOpcode rnd op c).display
          ((c.V (opY op) % 32 + r) * 64 + (c.V (opX op) % 64 + cc)) =
        Bool.xor
          (c.display ((c.V (opY op) % 32 + r) * 64 + (c.V (opX op) % 64 + cc)))
          (Nat.testBit (c.ram (c.I + r) % 256) (7 - cc))) ∧
  (∀ p, (∀ r, r < min (opN op) (32 - c.V (opY op) % 32) →
      ∀ cc, cc < min 8 (64 - c.V (opX op) % 64) →
        p ≠ (c.V (opY op) % 32 + r) * 64 + (c.V (opX op) % 64 + cc)) →
      (execOpcode rnd op c).display p = c.display p) ∧
  ((execOpcode rnd op c).V 15 =
    if ∃ r, r < min (opN op) (32 - c.V (opY op) % 32) ∧
        ∃ cc, cc < min 8 (64 - c.V (opX op) % 64) ∧
          Nat.testBit (c.ram (c.I + r) % 256) (7 - cc) = true ∧
          c.display ((c.V (opY op) % 32 + r) * 64 + (c.V (opX op) % 64 + cc)) = true
    then 1 else 0)

/-- State whose registers point the draw at the top-left corner: `V0 = 0`,
`V1 = 0`, `I = 0`, display clear, ram holding the font at 0. -/
def stC1 : Chip8 :=
  { ram := fun a => fontData.getD a 0
    display := fun _ => false, stack := fun _ => 0, sp := 0
    V := fun _ => 0, I := 0, PC := 0x200, delay_timer := 0, sound_timer := 0
    keypad := fun _ => false }

/-! ## Helper lemmas -/

lemma exec0_ram (op : Nat) (c : Chip8) : (exec0 op c).ram = c.ram := by
  simp [exec0, apply_ite Chip8.ram]

lemma exec1_ram (op : Nat) (c : Chip8) : (exec1 op c).ram = c.ram := rfl

lemma exec2_ram (op : Nat) (c : Chip8) : (exec2 op c).ram = c.ram := rfl

lemma exec3_ram (op : Nat) (c : Chip8) : (exec3 op c).ram = c.ram := by
  simp [exec3, apply_ite Chip8.ram]

lemma exec4_ram (op : Nat) (c : Chip8) : (exec4 op c).ram = c.ram := by
  simp [exec4, apply_ite Chip8.ram]

lemma exec5_ram (op : Nat) (c : Chip8) : (exec5 op c).ram = c.ram := by
  simp [exec5, apply_ite Chip8.ram]

lemma exec6_ram (op : Nat) (c : Chip8) : (exec6 op c).ram = c.ram := rfl

lemma exec7_ram (op : Nat) (c : Chip8) : (exec7 op c).ram = c.ram := rfl

lemma exec8_ram (op : Nat) (c : Chip8) : (exec8 op c).ram = c.ram := by
  simp [exec8, apply_ite Chip8.ram]

lemma exec9_ram (op : Nat) (c : Chip8) : (exec9 op c).ram = c.ram := by
  simp [exec9, apply_ite Chip8.ram]

lemma execA_ram (op : Nat) (c : Chip8) : (execA op c).ram = c.ram := rfl

lemma execB_ram (op : Nat) (c : Chip8) : (execB op c).ram = c.ram := rfl

lemma execC_ram (rnd op : Nat) (c : Chip8) : (execC rnd op c).ram = c.ram := rfl

lemma execD_ram (op : Nat) (c : Chip8) : (execD op c).ram = c.ram := rfl

lemma execE_ram (op : Nat) (c : Chip8) : (execE op c).ram = c.ram := by
  simp [execE, apply_ite Chip8.ram]

lemma execF_ram (op : Nat) (c : Chip8) : (execF op c).ram = c.ram := by
  unfold execF
  rcases h : findKeyFrom c.keypad 0 with _ | k <;>
    simp [h, apply_ite Chip8.ram]

lemma execOpcode_ram (rnd op : Nat) (c : Chip8) : (execOpcode rnd op c).ram = c.ram := by
  simp [execOpcode, apply_ite Chip8.ram, exec0_ram, exec1_ram, exec2_ram, exec3_ram,
    exec4_ram, exec5_ram, exec6_ram, exec7_ram, exec8_ram, exec9_ram, execA_ram,
    execB_ram, execC_ram, execD_ram, execE_ram, execF_ram]

lemma emulate_ram (rnd : Nat) (c : Chip8) : (emulate_instruction rnd c).ram = c.ram := by
  unfold emulate_instruction
  rw [execOpcode_ram]

lemma execOpcode_unhandled (rnd op : Nat) (c : Chip8) (h : unhandled op = true) :
    execOpcode rnd op c = c := by
  simp only [unhandled, Bool.or_eq_true] at h
  rcases h with ((h | h) | h) | h <;>
    simp only [Bool.and_eq_true, beq_iff_eq, Bool.not_eq_true', beq_eq_false_iff_ne,
      ne_eq, Bool.or_eq_false_iff] at h
  · obtain ⟨⟨ht, h1⟩, h2⟩ := h
    unfold execOpcode exec0
    simp [ht, h1, h2]
  · obtain ⟨ht, ⟨⟨⟨⟨⟨⟨⟨⟨n0, n1⟩, n2⟩, n3⟩, n4⟩, n5⟩, n6⟩, n7⟩, nE⟩⟩ := h
    unfold execOpcode exec8
    simp [ht, n0, n1, n2, n3, n4, n5, n6, n7, nE]
  · obtain ⟨ht, h1, h2⟩ := h
    unfold execOpcode execE
    simp [ht, h1, h2]
  · obtain ⟨ht, ⟨⟨⟨⟨⟨nA, nE⟩, n7⟩, n15⟩, n18⟩, n29⟩⟩ := h
    unfold execOpcode execF
    simp [ht, nA, nE, n7, n15, n18, n29]

lemma findKeyFrom_none (kp : Nat → Bool) :
    ∀ fuel i, 16 - i ≤ fuel → (∀ k, i ≤ k → k < 16 → kp k = false) →
      findKeyFrom kp i = none := by
  intro fuel
  induction fuel with
  | zero =>
    intro i hf _
    rw [findKeyFrom]
    have hi : ¬ i < 16 := by omega
    simp [hi]
  | succ f ih =>
    intro i hf h
    rw [findKeyFrom]
    by_cases hi : i < 16
    · have hki : kp i = false := h i le_rfl hi
      simp only [hi, dif_pos, hki, Bool.false_eq_true, if_false]
      exact ih (i + 1) (by omega) (fun k hk hk16 => h k (by omega) hk16)
    · simp [hi]

lemma findKeyFrom_some_spec (kp : Nat → Bool) :
    ∀ fuel i k0, 16 - i ≤ fuel → findKeyFrom kp i = some k0 →
      i ≤ k0 ∧ k0 < 16 ∧ kp k0 = true ∧ ∀ j, i ≤ j → j < k0 → kp j = false := by
  intro fuel
  induction fuel with
  | zero =>
    intro i k0 hf h
    rw [findKeyFrom] at h
    have hi : ¬ i < 16 := by omega
    simp [hi] at h
  | succ f ih =>
    intro i k0 hf h
    rw [findKeyFrom] at h
    by_cases hi : i < 16
    · simp only [hi, dif_pos] at h
      by_cases hki : kp i = true
      · simp only [hki, if_true, Option.some_inj] at h
        subst h
        exact ⟨le_rfl, hi, hki, fun j hj hj2 => absurd (lt_of_le_of_lt hj hj2) (lt_irrefl _)⟩
      · simp only [hki, if_false] at h
        obtain ⟨h1, h2, h3, h4⟩ := ih (i + 1) k0 (by omega) h
        refine ⟨by omega, h2, h3, fun j hj hj2 => ?_⟩
        rcases Nat.eq_or_lt_of_le hj with rfl | hlt
        · exact Bool.not_eq_true _ ▸ (by simpa using hki)
        · exact h4 j (by omega) hj2
    · simp [hi] at h

lemma findKeyFrom_exists (kp : Nat → Bool) :
    ∀ fuel i k, 16 - i ≤ fuel → i ≤ k → k < 16 → kp k = true →
      ∃ k0, findKeyFrom kp i = some k0 := by
  intro fuel
  induction fuel with
  | zero =>
    intro i k hf hik hk _
    omega
  | succ f ih =>
    intro i k hf hik hk hkp
    rw [findKeyFrom]
    have hi : i < 16 := by omega
    by_cases hki : kp i = true
    · exact ⟨i, by simp [hi, hki]⟩
    · have hik2 : i + 1 ≤ k := by
        rcases Nat.eq_or_lt_of_le hik with rfl | h
        · exact absurd hkp hki
        · omega
      obtain ⟨k0, hk0⟩ := ih (i + 1) k (by omega) hik2 hk hkp
      exact ⟨k0, by simp [hi, hki, hk0]⟩

lemma update_lt (f : Int → Nat) (a : Int) (v n : Nat) (hf : ∀ i, f i < n) (hv : v < n) :
    ∀ i, Function.update f a v i < n := by
  intro i
  rcases eq_or_ne i a with rfl | hne
  · rw [Function.update_same]
    exact hv
  · rw [Function.update_noteq hne]
    exact hf i

lemma exec0_inv (op : Nat) (c : Chip8) (h : PCStackInv c) : PCStackInv (exec0 op c) := by
  unfold exec0
  split
  · exact h
  split
  · exact ⟨h.2 _, h.2⟩
  · exact h

lemma exec1_inv (op : Nat) (c : Chip8) (h : PCStackInv c) : PCStackInv (exec1 op c) := by
  refine ⟨?_, h.2⟩
  show opNNN op < 65536
  unfold opNNN
  omega

lemma exec2_inv (op : Nat) (c : Chip8) (h : PCStackInv c) : PCStackInv (exec2 op c) := by
  constructor
  · show opNNN op < 65536
    unfold opNNN
    omega
  · exact update_lt c.stack c.sp c.PC 65536 h.2 h.1

lemma exec3_inv (op : Nat) (c : Chip8) (h : PCStackInv c) : PCStackInv (exec3 op c) := by
  unfold exec3
  split
  · exact ⟨Nat.mod_lt _ (by norm_num), h.2⟩
  · exact h

lemma exec4_inv (op : Nat) (c : Chip8) (h : PCStackInv c) : PCStackInv (exec4 op c) := by
  unfold exec4
  split
  · exact ⟨Nat.mod_lt _ (by norm_num), h.2⟩
  · exact h

lemma exec5_inv (op : Nat) (c : Chip8) (h : PCStackInv c) : PCStackInv (exec5 op c) := by
  unfold exec5
  split
  · exact ⟨Nat.mod_lt _ (by norm_num), h.2⟩
  · exact h

lemma exec8_PC (op : Nat) (c : Chip8) : (exec8 op c).PC = c.PC := by
  simp [exec8, apply_ite Chip8.PC]

lemma exec8_stack (op : Nat) (c : Chip8) : (exec8 op c).stack = c.stack := by
  simp [exec8, apply_ite Chip8.stack]

lemma exec8_inv (op : Nat) (c : Chip8) (h : PCStackInv c) : PCStackInv (exec8 op c) :=
  ⟨by rw [exec8_PC]; exact h.1, by rw [exec8_stack]; exact h.2⟩

lemma exec9_inv (op : Nat) (c : Chip8) (h : PCStackInv c) : PCStackInv (exec9 op c) := by
  unfold exec9
  split
  · exact ⟨Nat.mod_lt _ (by norm_num), h.2⟩
  · exact h

lemma execE_inv (op : Nat) (c : Chip8) (h : PCStackInv c) : PCStackInv (execE op c) := by
  unfold execE
  repeat' split
  all_goals first
    | exact h
    | exact ⟨Nat.mod_lt _ (by norm_num), h.2⟩

lemma execF_inv (op : Nat) (c : Chip8) (h : PCStackInv c) : PCStackInv (execF op c) := by
  unfold execF
  by_cases hA : opNN op = 0x0A
  · rw [if_pos hA]
    rcases hk : findKeyFrom c.keypad 0 with _ | k <;> simp only [hk]
    · exact ⟨Nat.mod_lt _ (by norm_num), h.2⟩
    · exact ⟨h.1, h.2⟩
  · rw [if_neg hA]
    by_cases h1 : opNN op = 0x1E
    · rw [if_pos h1]
      exact ⟨h.1, h.2⟩
    rw [if_neg h1]
    by_cases h2 : opNN op = 0x07
    · rw [if_pos h2]
      exact ⟨h.1, h.2⟩
    rw [if_neg h2]
    by_cases h3 : opNN op = 0x15
    · rw [if_pos h3]
      exact ⟨h.1, h.2⟩
    rw [if_neg h3]
    by_cases h4 : opNN op = 0x18
    · rw [if_pos h4]
      exact ⟨h.1, h.2⟩
    rw [if_neg h4]
    by_cases h5 : opNN op = 0x29
    · rw [if_pos h5]
      exact ⟨h.1, h.2⟩
    rw [if_neg h5]
    exact h

lemma execOpcode_inv (rnd op : Nat) (c : Chip8) (h : PCStackInv c) :
    PCStackInv (execOpcode rnd op c) := by
  obtain ⟨t, hT⟩ : ∃ t, opT op = t := ⟨_, rfl⟩
  have ht16 : t < 16 := by
    rw [← hT]
    exact Nat.mod_lt _ (by norm_num)
  unfold execOpcode
  rw [hT]
  interval_cases t <;> simp only [reduceIte] <;>
    first
      | exact h
      | exact exec0_inv op c h
      | exact exec1_inv op c h
      | exact exec2_inv op c h
      | exact exec3_inv op c h
      | exact exec4_inv op c h
      | exact exec5_inv op c h
      | exact ⟨h.1, h.2⟩
      | exact exec8_inv op c h
      | exact exec9_inv op c h
      | exact ⟨Nat.mod_lt _ (by norm_num), h.2⟩
      | exact execE_inv op c h
      | exact execF_inv op c h

lemma emulate_inv (rnd : Nat) (c : Chip8) (h : PCStackInv c) :
    PCStackInv (emulate_instruction rnd c) := by
  unfold emulate_instruction
  exact execOpcode_inv rnd (fetch c)
    { c with PC := (c.PC + 2) % 65536 }
    ⟨Nat.mod_lt _ (by norm_num), h.2⟩

lemma exists_lt_succ_split (m : Nat) (P : Nat → Prop) :
    (∃ cc, cc < m + 1 ∧ P cc) ↔ P 0 ∨ ∃ cc, cc < m ∧ P (cc + 1) := by
  constructor
  · rintro ⟨cc, hcc, hP⟩
    rcases cc with _ | cc'
    · exact Or.inl hP
    · exact Or.inr ⟨cc', by omega, hP⟩
  · rintro (h | ⟨cc, hcc, hP⟩)
    · exact ⟨0, by omega, h⟩
    · exact ⟨cc + 1, by omega, hP⟩

lemma ite_one_collapse (A B : Prop) [Decidable A] [Decidable B] (v : Nat) :
    (if A then (1 : Nat) else if B then 1 else v) = if A ∨ B then 1 else v := by
  by_cases hA : A <;> by_cases hB : B <;> simp [hA, hB]

/-- Characterization of the DXYN inner loop at screen row `y`, starting
column `x < 64`, bits `j, j-1, ..., 0` (clipped at the right edge):
exactly the cells at columns `x + cc` for `cc < min (j+1) (64-x)` are
XORed with sprite bit `j - cc`, everything else is untouched, and the
carry out is 1 exactly when some drawn bit collides (otherwise the carry
in is returned). -/
lemma drawRowBits_spec (s y : Nat) :
    ∀ j x (disp : Nat → Bool) (vf : Nat), x < 64 →
      ((∀ cc, cc < min (j + 1) (64 - x) →
          (drawRowBits s y x j disp vf).1 (y * 64 + (x + cc)) =
            Bool.xor (disp (y * 64 + (x + cc))) (Nat.testBit s (j - cc)))
      ∧ (∀ p, (∀ cc, cc < min (j + 1) (64 - x) → p ≠ y * 64 + (x + cc)) →
          (drawRowBits s y x j disp vf).1 p = disp p)
      ∧ ((drawRowBits s y x j disp vf).2 =
          if ∃ cc, cc < min (j + 1) (64 - x) ∧ Nat.testBit s (j - cc) = true ∧
              disp (y * 64 + (x + cc)) = true then 1 else vf)) := by
  intro j
  induction j with
  | zero =>
    intro x disp vf hx
    have hm : min (0 + 1) (64 - x) = 1 := by omega
    have hout : drawRowBits s y x 0 disp vf =
        (Function.update disp (y * 64 + x) (Bool.xor (disp (y * 64 + x)) (Nat.testBit s 0)),
         if Nat.testBit s 0 && disp (y * 64 + x) then 1 else vf) := by
      rw [drawRowBits.eq_def]
      by_cases hx1 : 64 ≤ x + 1 <;> simp [hx1]
    rw [hout, hm]
    refine ⟨?_, ?_, ?_⟩
    · intro cc hcc
      have : cc = 0 := by omega
      subst this
      simp [Function.update_same]
    · intro p hp
      have hne : p ≠ y * 64 + x := by
        have := hp 0 (by omega)
        simpa using this
      simp [Function.update_noteq hne]
    · have hiff : (∃ cc, cc < 1 ∧ Nat.testBit s (0 - cc) = true ∧
          disp (y * 64 + (x + cc)) = true) ↔
          (Nat.testBit s 0 && disp (y * 64 + x)) = true := by
        constructor
        · rintro ⟨cc, hcc, hb, hdp⟩
          have hcc0 : cc = 0 := by omega
          subst hcc0
          simp only [Nat.sub_zero] at hb
          simp only [Nat.add_zero] at hdp
          simp [hb, hdp]
        · intro h
          rw [Bool.and_eq_true] at h
          exact ⟨0, by omega, by simpa using h.1, by simpa using h.2⟩
      by_cases hcond : (Nat.testBit s 0 && disp (y * 64 + x)) = true
      · rw [if_pos hcond, if_pos (hiff.mpr hcond)]
      · rw [if_neg hcond, if_neg (fun h => hcond (hiff.mp h))]
  | succ j' ih =>
    intro x disp vf hx
    by_cases hx1 : 64 ≤ x + 1
    · -- x = 63: exactly one column is drawn and the loop breaks
      have hm : min (j' + 1 + 1) (64 - x) = 1 := by omega
      have hout : drawRowBits s y x (j' + 1) disp vf =
          (Function.update disp (y * 64 + x)
             (Bool.xor (disp (y * 64 + x)) (Nat.testBit s (j' + 1))),
           if Nat.testBit s (j' + 1) && disp (y * 64 + x) then 1 else vf) := by
        rw [drawRowBits.eq_def]
        simp [hx1]
      rw [hout, hm]
      refine ⟨?_, ?_, ?_⟩
      · intro cc hcc
        have hcc0 : cc = 0 := by omega
        subst hcc0
        simp [Function.update_same]
      · intro p hp
        have hne : p ≠ y * 64 + x := by
          have := hp 0 (by omega)
          simpa using this
        simp [Function.update_noteq hne]
      · have hiff : (∃ cc, cc < 1 ∧ Nat.testBit s (j' + 1 - cc) = true ∧
            disp (y * 64 + (x + cc)) = true) ↔
            (Nat.testBit s (j' + 1) && disp (y * 64 + x)) = true := by
          constructor
          · rintro ⟨cc, hcc, hb, hdp⟩
            have hcc0 : cc = 0 := by omega
            subst hcc0
            simp only [Nat.sub_zero] at hb
            simp only [Nat.add_zero] at hdp
            simp [hb, hdp]
          · intro h
            rw [Bool.and_eq_true] at h
            exact ⟨0, by omega, by simpa using h.1, by simpa using h.2⟩
        by_cases hcond : (Nat.testBit s (j' + 1) && disp (y * 64 + x)) = true
        · rw [if_pos hcond, if_pos (hiff.mpr hcond)]
        · rw [if_neg hcond, if_neg (fun h => hcond (hiff.mp h))]
    · -- x + 1 < 64: draw bit j'+1 at column x, then recurse at x+1 with j'
      have hx1' : x + 1 < 64 := by omega
      have hm : min (j' + 1 + 1) (64 - x) = min (j' + 1) (64 - (x + 1)) + 1 := by omega
      set idx := y * 64 + x with hidx
      set sbit := Nat.testBit s (j' + 1) with hsbit
      set vf1 := (if sbit && disp idx then (1 : Nat) else vf) with hvf1
      set disp1 := Function.update disp idx (Bool.xor (disp idx) sbit) with hdisp1
      have hout : drawRowBits s y x (j' + 1) disp vf =
          drawRowBits s y (x + 1) j' disp1 vf1 := by
        rw [drawRowBits.eq_def]
        simp only [← hidx, ← hsbit, ← hvf1, ← hdisp1]
        rw [if_neg hx1]
      obtain ⟨ih1, ih2, ih3⟩ := ih (x + 1) disp1 vf1 hx1'
      -- the cell at idx is untouched by the recursion
      have hidx_ne : ∀ cc, cc < min (j' + 1) (64 - (x + 1)) →
          idx ≠ y * 64 + (x + 1 + cc) := by
        intro cc _ heq
        rw [hidx] at heq
        omega
      have hd1 : ∀ cc, cc < min (j' + 1) (64 - (x + 1)) →
          disp1 (y * 64 + (x + 1 + cc)) = disp (y * 64 + (x + 1 + cc)) := by
        intro cc hcc
        rw [hdisp1]
        exact Function.update_noteq (fun h => hidx_ne cc hcc h.symm) _ _
      rw [hout, hm]
      refine ⟨?_, ?_, ?_⟩
      · intro cc hcc
        rcases cc with _ | cc'
        · -- the bit drawn at column x itself
          have hne : ∀ dd, dd < min (j' + 1) (64 - (x + 1)) →
              y * 64 + (x + 0) ≠ y * 64 + (x + 1 + dd) := by
            intro dd _ heq
            omega
          rw [ih2 _ hne]
          rw [hdisp1]
          simp only [Nat.add_zero, Nat.sub_zero, ← hidx]
          simp [Function.update_same, hsbit]
        · -- a later column, handled by the recursive call
          have hcc' : cc' < min (j' + 1) (64 - (x + 1)) := by omega
          have hx' : x + (cc' + 1) = x + 1 + cc' := by omega
          have hj' : j' + 1 - (cc' + 1) = j' - cc' := by omega
          rw [hx', hj']
          rw [ih1 cc' hcc', hd1 cc' hcc']
      · intro p hp
        have hp' : ∀ cc, cc < min (j' + 1) (64 - (x + 1)) → p ≠ y * 64 + (x + 1 + cc) := by
          intro cc hcc
          have := hp (cc + 1) (by omega)
          rwa [show x + (cc + 1) = x + 1 + cc from by omega] at this
        rw [ih2 p hp']
        have hne : p ≠ idx := by
          have := hp 0 (by omega)
          rw [hidx]
          simpa using this
        rw [hdisp1]
        exact Function.update_noteq hne _ _
      · rw [ih3]
        have hiffrec : (∃ cc, cc < min (j' + 1) (64 - (x + 1)) ∧
              Nat.testBit s (j' - cc) = true ∧ disp1 (y * 64 + (x + 1 + cc)) = true) ↔
            (∃ cc, cc < min (j' + 1) (64 - (x + 1)) ∧
              Nat.testBit s (j' + 1 - (cc + 1)) = true ∧
              disp (y * 64 + (x + (cc + 1))) = true) := by
          apply exists_congr
          intro cc
          constructor
          · rintro ⟨h1, h2, h3⟩
            rw [hd1 cc h1] at h3
            exact ⟨h1, by rwa [show j' + 1 - (cc + 1) = j' - cc from by omega],
              by rwa [show x + (cc + 1) = x + 1 + cc from by omega]⟩
          · rintro ⟨h1, h2, h3⟩
            rw [show j' + 1 - (cc + 1) = j' - cc from by omega] at h2
            rw [show x + (cc + 1) = x + 1 + cc from by omega] at h3
            exact ⟨h1, h2, by rwa [hd1 cc h1]⟩
        have hvf1P : vf1 = if (Nat.testBit s (j' + 1 - 0) = true ∧
            disp (y * 64 + (x + 0)) = true) then 1 else vf := by
          rw [hvf1]
          simp only [Nat.sub_zero, Nat.add_zero, ← hidx, ← hsbit]
          by_cases hcond : (sbit && disp idx) = true
          · rw [if_pos hcond, if_pos]
            rw [Bool.and_eq_true] at hcond
            exact ⟨hcond.1, hcond.2⟩
          · rw [if_neg hcond, if_neg]
            intro h
            exact hcond (by rw [Bool.and_eq_true]; exact ⟨h.1, h.2⟩)
        rw [if_congr hiffrec rfl rfl, hvf1P, ite_one_collapse]
        have hfin : ((∃ cc, cc < min (j' + 1) (64 - (x + 1)) ∧
              Nat.testBit s (j' + 1 - (cc + 1)) = true ∧
              disp (y * 64 + (x + (cc + 1))) = true) ∨
            (Nat.testBit s (j' + 1 - 0) = true ∧ disp (y * 64 + (x + 0)) = true)) ↔
            (∃ cc, cc < min (j' + 1) (64 - (x + 1)) + 1 ∧
              Nat.testBit s (j' + 1 - cc) = true ∧ disp (y * 64 + (x + cc)) = true) := by
          rw [exists_lt_succ_split (min (j' + 1) (64 - (x + 1)))
            (fun cc => Nat.testBit s (j' + 1 - cc) = true ∧ disp (y * 64 + (x + cc)) = true)]
          exact or_comm
        rw [if_congr hfin rfl rfl]

/-- Characterization of the DXYN outer loop: starting at sprite row `i`,
screen row `y < 32`, exactly `min (N-i) (32-y)` rows are drawn (clipped at
the bottom edge), each XORing `min 8 (64-x0)` cells of its screen row
with the sprite byte's bits taken most-significant first; every other cell
is untouched; the carry out is 1 exactly when some drawn sprite bit meets
a set display cell (otherwise the carry in is returned). -/
lemma drawRows_spec (ram : Nat → Nat) (I x0 : Nat) (hx : x0 < 64) :
    ∀ fuel i N y (disp : Nat → Bool) (vf : Nat), N - i ≤ fuel → y < 32 →
      ((∀ r, r < min (N - i) (32 - y) → ∀ cc, cc < min 8 (64 - x0) →
          (drawRows ram I x0 i N y disp vf).1 ((y + r) * 64 + (x0 + cc)) =
            Bool.xor (disp ((y + r) * 64 + (x0 + cc)))
              (Nat.testBit (ram (I + (i + r)) % 256) (7 - cc)))
      ∧ (∀ p, (∀ r, r < min (N - i) (32 - y) → ∀ cc, cc < min 8 (64 - x0) →
            p ≠ (y + r) * 64 + (x0 + cc)) →
          (drawRows ram I x0 i N y disp vf).1 p = disp p)
      ∧ ((drawRows ram I x0 i N y disp vf).2 =
          if ∃ r, r < min (N - i) (32 - y) ∧ ∃ cc, cc < min 8 (64 - x0) ∧
              Nat.testBit (ram (I + (i + r)) % 256) (7 - cc) = true ∧
              disp ((y + r) * 64 + (x0 + cc)) = true then 1 else vf)) := by
  intro fuel
  induction fuel with
  | zero =>
    intro i N y disp vf hfuel hy
    have hiN : ¬ i < N := by omega
    have hout : drawRows ram I x0 i N y disp vf = (disp, vf) := by
      rw [drawRows.eq_def]
      simp [hiN]
    have hRS : min (N - i) (32 - y) = 0 := by omega
    rw [hout, hRS]
    refine ⟨fun r hr => absurd hr (by omega), fun p _ => rfl, ?_⟩
    rw [if_neg]
    rintro ⟨r, hr, _⟩
    omega
  | succ fuel ih =>
    intro i N y disp vf hfuel hy
    by_cases hiN : i < N
    · obtain ⟨R1, R2, R3⟩ :=
        drawRowBits_spec (ram (I + i) % 256) y 7 x0 disp vf hx
      have hm8 : min (7 + 1) (64 - x0) = min 8 (64 - x0) := rfl
      rw [hm8] at R1 R2 R3
      by_cases hy1 : 32 ≤ y + 1
      · -- bottom row: the sprite is clipped after this row
        have hout : drawRows ram I x0 i N y disp vf =
            drawRowBits (ram (I + i) % 256) y x0 7 disp vf := by
          rw [drawRows.eq_def]
          simp [hiN, hy1]
        have hRS : min (N - i) (32 - y) = 1 := by omega
        rw [hout, hRS]
        refine ⟨?_, ?_, ?_⟩
        · intro r hr cc hcc
          have hr0 : r = 0 := by omega
          subst hr0
          simp only [Nat.add_zero]
          exact R1 cc hcc
        · intro p hp
          apply R2
          intro cc hcc
          have := hp 0 (by omega) cc hcc
          simpa using this
        · rw [R3]
          apply if_congr ?_ rfl rfl
          constructor
          · rintro ⟨cc, hcc, hb, hd⟩
            exact ⟨0, by omega, cc, hcc, by simpa using hb, by simpa using hd⟩
          · rintro ⟨r, hr, cc, hcc, hb, hd⟩
            have hr0 : r = 0 := by omega
            subst hr0
            exact ⟨cc, hcc, by simpa using hb, by simpa using hd⟩
      · -- draw this row, then recurse one row down
        have hy1' : y + 1 < 32 := by omega
        have hm : min (N - i) (32 - y) = min (N - (i + 1)) (32 - (y + 1)) + 1 := by omega
        have hout : drawRows ram I x0 i N y disp vf =
            drawRows ram I x0 (i + 1) N (y + 1)
              (drawRowBits (ram (I + i) % 256) y x0 7 disp vf).1
              (drawRowBits (ram (I + i) % 256) y x0 7 disp vf).2 := by
          rw [drawRows.eq_def]
          simp [hiN, hy1]
        obtain ⟨S1, S2, S3⟩ := ih (i + 1) N (y + 1)
          (drawRowBits (ram (I + i) % 256) y x0 7 disp vf).1
          (drawRowBits (ram (I + i) % 256) y x0 7 disp vf).2
          (by omega) hy1'
        -- cells of rows below y are untouched by this row's drawing
        have hrow_miss : ∀ r cc, cc < min 8 (64 - x0) →
            (drawRowBits (ram (I + i) % 256) y x0 7 disp vf).1
                ((y + 1 + r) * 64 + (x0 + cc)) =
              disp ((y + 1 + r) * 64 + (x0 + cc)) := by
          intro r cc hcc
          apply R2
          intro dd hdd heq
          have hxdd : x0 + dd < 64 := by omega
          have hxcc : x0 + cc < 64 := by omega
          omega
        rw [hout, hm]
        refine ⟨?_, ?_, ?_⟩
        · intro r hr cc hcc
          rcases r with _ | r''
          · -- the row drawn at y itself, untouched by the recursion
            simp only [Nat.add_zero]
            have hne : ∀ r', r' < min (N - (i + 1)) (32 - (y + 1)) →
                ∀ cc', cc' < min 8 (64 - x0) →
                  y * 64 + (x0 + cc) ≠ (y + 1 + r') * 64 + (x0 + cc') := by
              intro r' _ cc' hcc' heq
              have hxcc : x0 + cc < 64 := by omega
              have hxcc' : x0 + cc' < 64 := by omega
              omega
            rw [S2 _ hne]
            exact R1 cc hcc
          · -- a later row, handled by the recursive call
            have hr'' : r'' < min (N - (i + 1)) (32 - (y + 1)) := by omega
            rw [show y + (r'' + 1) = y + 1 + r'' from by omega,
              show i + (r'' + 1) = i + 1 + r'' from by omega]
            rw [S1 r'' hr'' cc hcc, hrow_miss r'' cc hcc]
        · intro p hp
          have hp' : ∀ r, r < min (N - (i + 1)) (32 - (y + 1)) →
              ∀ cc, cc < min 8 (64 - x0) → p ≠ (y + 1 + r) * 64 + (x0 + cc) := by
            intro r hr cc hcc
            have := hp (r + 1) (by omega) cc hcc
            rwa [show y + (r + 1) = y + 1 + r from by omega] at this
          rw [S2 p hp']
          apply R2
          intro cc hcc
          have := hp 0 (by omega) cc hcc
          simpa using this
        · rw [S3]
          have hiffrec : (∃ r, r < min (N - (i + 1)) (32 - (y + 1)) ∧
                ∃ cc, cc < min 8 (64 - x0) ∧
                  Nat.testBit (ram (I + (i + 1 + r)) % 256) (7 - cc) = true ∧
                  (drawRowBits (ram (I + i) % 256) y x0 7 disp vf).1
                      ((y + 1 + r) * 64 + (x0 + cc)) = true) ↔
              (∃ r, r < min (N - (i + 1)) (32 - (y + 1)) ∧
                ∃ cc, cc < min 8 (64 - x0) ∧
                  Nat.testBit (ram (I + (i + (r + 1))) % 256) (7 - cc) = true ∧
                  disp ((y + (r + 1)) * 64 + (x0 + cc)) = true) := by
            apply exists_congr
            intro r
            constructor
            · rintro ⟨hr, cc, hcc, hb, hd⟩
              rw [hrow_miss r cc hcc] at hd
              refine ⟨hr, cc, hcc, ?_, ?_⟩
              · rwa [show i + (r + 1) = i + 1 + r from by omega]
              · rwa [show y + (r + 1) = y + 1 + r from by omega]
            · rintro ⟨hr, cc, hcc, hb, hd⟩
              rw [show i + (r + 1) = i + 1 + r from by omega] at hb
              rw [show y + (r + 1) = y + 1 + r from by omega] at hd
              exact ⟨hr, cc, hcc, hb, by rwa [hrow_miss r cc hcc]⟩
          rw [if_congr hiffrec rfl rfl, R3, ite_one_collapse]
          have hfin : ((∃ r, r < min (N - (i + 1)) (32 - (y + 1)) ∧
                ∃ cc, cc < min 8 (64 - x0) ∧
                  Nat.testBit (ram (I + (i + (r + 1))) % 256) (7 - cc) = true ∧
                  disp ((y + (r + 1)) * 64 + (x0 + cc)) = true) ∨
              (∃ cc, cc < min 8 (64 - x0) ∧
                Nat.testBit (ram (I + i) % 256) (7 - cc) = true ∧
                disp (y * 64 + (x0 + cc)) = true)) ↔
              (∃ r, r < min (N - (i + 1)) (32 - (y + 1)) + 1 ∧
                ∃ cc, cc < min 8 (64 - x0) ∧
                  Nat.testBit (ram (I + (i + r)) % 256) (7 - cc) = true ∧
                  disp ((y + r) * 64 + (x0 + cc)) = true) := by
            rw [exists_lt_succ_split (min (N - (i + 1)) (32 - (y + 1)))
              (fun r => ∃ cc, cc < min 8 (64 - x0) ∧
                Nat.testBit (ram (I + (i + r)) % 256) (7 - cc) = true ∧
                disp ((y + r) * 64 + (x0 + cc)) = true)]
            exact or_comm
          rw [if_congr hfin rfl rfl]
    · -- i ≥ N: no rows are drawn
      have hout : drawRows ram I x0 i N y disp vf = (disp, vf) := by
        rw [drawRows.eq_def]
        simp [hiN]
      have hRS : min (N - i) (32 - y) = 0 := by omega
      rw [hout, hRS]
      refine ⟨fun r hr => absurd hr (by omega), fun p _ => rfl, ?_⟩
      rw [if_neg]
      rintro ⟨r, hr, _⟩
      omega

/-! ## Claims -/

/-- C2: the claim says 8XY4 writes VF on every execution (1 on carry, 0
otherwise).  The code (src/chip8.c:628-634) only executes `V[0xF] = 1`
under the carry test and never writes 0, contradicting its own comment
"set VF to 1 if carry, otherwise 0": executing `0x8014` with `V0 = 0`,
`V1 = 0` (no carry) and `VF = 1` leaves `VF = 1` where the claim requires
`VF = 0`.  The sum itself is written correctly. -/
theorem c2_add_flag_never_cleared :
    stC2.V 0 + stC2.V 1 ≤ 255 ∧
    (emulate_instruction 0 stC2).V 15 = 1 ∧
    (emulate_instruction 0 stC2).V 0 = 0 := by
  refine ⟨by decide, by decide, by decide⟩

/-- C3: the claim says 8XY5 / 8XY7 write VF on every execution (the
no-borrow flag, 0 on borrow).  The code (src/chip8.c:636-656) only executes
`V[0xF] = 1` under the no-borrow test and never writes 0 (the 8XY7 comment
"VF = 0 when underflow" notwithstanding): executing `0x8015` with `V0 = 0 <
V1 = 1`, `VF = 1` leaves `VF = 1` (claim: 0), and executing `0x8017` with
`V1 = 0 < V0 = 1`, `VF = 1` leaves `VF = 1` (claim: 0).  The wrapped
differences themselves are written correctly. -/
theorem c3_sub_flag_never_cleared :
    stC3a.V 0 < stC3a.V 1 ∧
    (emulate_instruction 0 stC3a).V 15 = 1 ∧
    (emulate_instruction 0 stC3a).V 0 = 255 ∧
    stC3b.V 1 < stC3b.V 0 ∧
    (emulate_instruction 0 stC3b).V 15 = 1 ∧
    (emulate_instruction 0 stC3b).V 0 = 255 := by
  refine ⟨by decide, by decide, by decide, by decide, by decide, by decide⟩

/-- C4: every tick decrements `delay_timer` exactly when it is positive and
`sound_timer` exactly when it is positive; a timer at 0 stays 0 (the
`else` branches return the timer unchanged, and on `Nat` no value is
negative). -/
theorem c4_tick_decrements (c : Chip8) :
    (tick c).delay_timer = (if 0 < c.delay_timer then c.delay_timer - 1 else c.delay_timer) ∧
    (tick c).sound_timer = (if 0 < c.sound_timer then c.sound_timer - 1 else c.sound_timer) := by
  unfold tick
  by_cases hd : 0 < c.delay_timer <;> by_cases hs : 0 < c.sound_timer <;>
    simp [hd, hs]

/-- C10: one emulation step never changes any byte of the 4096-byte memory:
no branch of the dispatch writes to `ram` (the memory-writing CHIP-8
opcodes FX33/FX55/FX65 reach the silent default branch). -/
theorem c10_memory_unchanged (rnd : Nat) (c : Chip8) :
    (emulate_instruction rnd c).ram = c.ram :=
  emulate_ram rnd c

/-- C5 (amended): every opcode that falls through to a default/empty branch
of the dispatch — where family 0 falls through only when `NNN ≠ 0xE0` and
`NN ≠ 0xEE` (so `0x0XEE` executes a return for every X), families 5 and 9
never fall through (the low nibble is not inspected), and families 8, E, F
fall through outside their handled sub-cases — is a silent no-op: the step
changes nothing except PC, which ends exactly 2 past the instruction. -/
theorem c5_unrecognized_noop (rnd : Nat) (c : Chip8) (h : unhandled (fetch c) = true) :
    emulate_instruction rnd c = { c with PC := (c.PC + 2) % 65536 } := by
  unfold emulate_instruction
  exact execOpcode_unhandled rnd (fetch c) _ h

/-- C5 witness: `c5_unrecognized_noop` applied to the concrete state `stC5w`
whose next opcode is `0x0000`. -/
theorem c5_unrecognized_noop_witness :
    emulate_instruction 0 stC5w = { stC5w with PC := (stC5w.PC + 2) % 65536 } :=
  c5_unrecognized_noop 0 stC5w (by decide)

/-- C5 counterexample: the claim as stated is false — opcode `0x01EE` has top
nibble 0 and is neither 00E0 nor 00EE, yet the code executes it as a
return (`inst.NN == 0xEE` is the only test): from `stC5` (one return
address 0x300 pushed) the step sets PC to 0x300, not to the claimed
PC+2 = 0x102, and pops the stack. -/
theorem c5_opcode_01EE_is_return :
    fetch stC5 = 0x01EE ∧
    (emulate_instruction 0 stC5).PC = 0x300 ∧
    (emulate_instruction 0 stC5).PC ≠ (stC5.PC + 2) % 65536 ∧
    (emulate_instruction 0 stC5).sp = 0 := by
  refine ⟨by decide, by decide, by decide, by decide⟩

/-- C8 (amended): neither stack bound is checked anywhere in the code
(src/chip8.c:562-564, 575-579): a 2NNN call executed with the 12-entry
stack already full writes a 13th return address at (out-of-bounds) index
12 and moves the stack pointer to 13, and a 00EE return executed with the
stack empty reads the (out-of-bounds) slot at index −1 into PC and moves
the stack pointer to −1; no error branch exists. -/
theorem c8_no_stack_bounds_check :
    (∀ rnd op (c : Chip8), opT op = 2 → c.sp = 12 →
      (execOpcode rnd op c).sp = 13 ∧ (execOpcode rnd op c).stack 12 = c.PC) ∧
    (∀ rnd (c : Chip8), c.sp = 0 →
      (execOpcode rnd 0x00EE c).sp = -1 ∧ (execOpcode rnd 0x00EE c).PC = c.stack (-1)) := by
  constructor
  · intro rnd op c ht hsp
    simp [execOpcode, exec2, ht, hsp, Function.update_same]
  · intro rnd c hsp
    norm_num [execOpcode, exec0, opT, opNNN, opNN, hsp]

/-- C8 witness: `c8_no_stack_bounds_check` applied to the concrete dispatch
inputs `0x2300` at `sp = 12` and `0x00EE` at `sp = 0`. -/
theorem c8_no_stack_bounds_check_witness :
    ((execOpcode 0 0x2300 stC8).sp = 13 ∧ (execOpcode 0 0x2300 stC8).stack 12 = stC8.PC) ∧
    ((execOpcode 0 0x00EE stC8e).sp = -1 ∧ (execOpcode 0 0x00EE stC8e).PC = stC8e.stack (-1)) :=
  ⟨c8_no_stack_bounds_check.1 0 0x2300 stC8 (by decide) (by decide),
   c8_no_stack_bounds_check.2 0 stC8e (by decide)⟩

/-- C8 counterexample: the claim as stated is false — executing `0x2300`
from `stC8` (stack full, `sp = 12`, slot 12 previously 0) hits no error
branch: the 13th entry is written (slot 12 becomes the pushed return
address 0x102) and the stack pointer ends at 13; likewise executing
`0x00EE` from `stC8e` (stack empty) reads below the array (PC becomes the
model value 0x7777 stored at offset −1) instead of failing. -/
theorem c8_overflow_underflow_not_detected :
    stC8.sp = 12 ∧ stC8.stack 12 = 0 ∧
    (emulate_instruction 0 stC8).stack 12 = 0x102 ∧
    (emulate_instruction 0 stC8).sp = 13 ∧
    stC8e.sp = 0 ∧
    (emulate_instruction 0 stC8e).sp = -1 ∧
    (emulate_instruction 0 stC8e).PC = 0x7777 := by
  refine ⟨by decide, by decide, by decide, by decide, by decide, by decide, by decide⟩

/-- C6: when the next opcode is FX0A and no key is pressed, the fetch
advances PC by 2 and the scan rewinds it by 2, so the whole state — PC
included — is unchanged over arbitrarily many consecutive steps; when some
key is pressed, the step stores the lowest-index pressed key into VX and
leaves PC exactly 2 past the instruction. -/
theorem c6_fx0a_busy_wait (c : Chip8) (hPC : c.PC < 65536)
    (ht : opT (fetch c) = 15) (hnn : opNN (fetch c) = 0x0A) :
    ((∀ k, k < 16 → c.keypad k = false) →
        ∀ rnds : List Nat, runSteps rnds c = c) ∧
    (∀ k, k < 16 → c.keypad k = true →
        ∃ k0, c.keypad k0 = true ∧ (∀ j, j < k0 → c.keypad j = false) ∧
          ∀ rnd, (emulate_instruction rnd c).PC = (c.PC + 2) % 65536 ∧
                 (emulate_instruction rnd c).V (opX (fetch c)) = k0) := by
  constructor
  · intro hka
    have hnone : findKeyFrom c.keypad 0 = none :=
      findKeyFrom_none c.keypad 16 0 (by omega) (fun k _ hk => hka k hk)
    have hmod : ((c.PC + 2) % 65536 + 65534) % 65536 = c.PC := by omega
    have hstep : ∀ rnd, emulate_instruction rnd c = c := by
      intro rnd
      unfold emulate_instruction
      simp [execOpcode, execF, ht, hnn, hnone, hmod]
    intro rnds
    induction rnds with
    | nil => rfl
    | cons r rs ih => rw [runSteps, hstep r, ih]
  · intro k hk hkp
    obtain ⟨k0, h0⟩ := findKeyFrom_exists c.keypad 16 0 k (by omega) (Nat.zero_le k) hk hkp
    obtain ⟨_, _, hkp0, hmin⟩ := findKeyFrom_some_spec c.keypad 16 0 k0 (by omega) h0
    refine ⟨k0, hkp0, fun j hj => hmin j (Nat.zero_le j) hj, fun rnd => ?_⟩
    unfold emulate_instruction
    constructor
    · simp [execOpcode, execF, ht, hnn, h0]
    · simp [execOpcode, execF, ht, hnn, h0]

/-- C6 witness: `c6_fx0a_busy_wait` applied to the concrete state `stC6`
(opcode 0xF50A at PC = 0x100, no key pressed). -/
theorem c6_fx0a_busy_wait_witness :
    ((∀ k, k < 16 → stC6.keypad k = false) →
        ∀ rnds : List Nat, runSteps rnds stC6 = stC6) ∧
    (∀ k, k < 16 → stC6.keypad k = true →
        ∃ k0, stC6.keypad k0 = true ∧ (∀ j, j < k0 → stC6.keypad j = false) ∧
          ∀ rnd, (emulate_instruction rnd stC6).PC = (stC6.PC + 2) % 65536 ∧
                 (emulate_instruction rnd stC6).V (opX (fetch stC6)) = k0) :=
  c6_fx0a_busy_wait stC6 (by decide) (by decide) (by decide)

/-- C7: from any state whose call stack is not full and whose next opcode is
`2NNN`, with a `00EE` return at address NNN, executing the call and then the
return leaves PC equal to its value immediately after the fetch/advance of
the call (`(PC+2) % 2^16`) and restores the stack depth. -/
theorem c7_call_return_roundtrip (c : Chip8) (rnd1 rnd2 NNN : Nat)
    (hsp : c.sp < 12)
    (hN : NNN < 4096)
    (h1 : c.ram c.PC % 256 = 0x20 + NNN / 256)
    (h2 : c.ram (c.PC + 1) % 256 = NNN % 256)
    (h3 : c.ram NNN % 256 = 0)
    (h4 : c.ram (NNN + 1) % 256 = 0xEE) :
    (emulate_instruction rnd2 (emulate_instruction rnd1 c)).PC = (c.PC + 2) % 65536 ∧
    (emulate_instruction rnd2 (emulate_instruction rnd1 c)).sp = c.sp := by
  have hop1 : fetch c = 0x2000 + NNN := by
    unfold fetch
    rw [h1, h2]
    omega
  have ht1 : opT (fetch c) = 2 := by
    rw [hop1]
    unfold opT
    omega
  have hNNN1 : opNNN (fetch c) = NNN := by
    rw [hop1]
    unfold opNNN
    omega
  have hd : emulate_instruction rnd1 c =
      { c with stack := Function.update c.stack c.sp ((c.PC + 2) % 65536),
               sp := c.sp + 1, PC := NNN } := by
    unfold emulate_instruction
    simp [execOpcode, exec2, ht1, hNNN1]
  rw [hd]
  have hop2 : fetch { c with
      stack := Function.update c.stack c.sp ((c.PC + 2) % 65536),
      sp := c.sp + 1,
      PC := NNN } = 0xEE := by
    unfold fetch
    simp only
    rw [h3, h4]
  have ht2 : opT (fetch { c with
      stack := Function.update c.stack c.sp ((c.PC + 2) % 65536),
      sp := c.sp + 1,
      PC := NNN }) = 0 := by
    rw [hop2]
    decide
  have hne : opNNN (fetch { c with
      stack := Function.update c.stack c.sp ((c.PC + 2) % 65536),
      sp := c.sp + 1,
      PC := NNN }) ≠ 0xE0 := by
    rw [hop2]
    decide
  have hee : opNN (fetch { c with
      stack := Function.update c.stack c.sp ((c.PC + 2) % 65536),
      sp := c.sp + 1,
      PC := NNN }) = 0xEE := by
    rw [hop2]
    decide
  unfold emulate_instruction
  simp [execOpcode, exec0, ht2, hne, hee, add_sub_cancel_right, Function.update_same]
  have hsp1 : c.sp + 1 - 1 = c.sp := by ring
  rw [hsp1]
  exact Function.update_same c.sp ((c.PC + 2) % 65536) c.stack

/-- C7 witness: `c7_call_return_roundtrip` applied to the concrete state
`stC7` (call `0x2300` at PC = 0x200, return `0x00EE` at 0x300, empty
stack). -/
theorem c7_call_return_roundtrip_witness :
    (emulate_instruction 0 (emulate_instruction 0 stC7)).PC = (stC7.PC + 2) % 65536 ∧
    (emulate_instruction 0 (emulate_instruction 0 stC7)).sp = stC7.sp :=
  c7_call_return_roundtrip stC7 0 0 0x300 (by decide) (by decide) (by decide)
    (by decide) (by decide) (by decide)

/-- C9 (amended): what the code guarantees about the program counter is only
its `uint16_t` range: in every state reachable from the initialized
machine, `PC < 2^16`.  Evenness and the `[0, 4094]` bound are not
invariants: `1NNN` sets PC to an arbitrary 12-bit target (odd included),
`BNNN` can set PC up to `0xFFF + 0xFF`, and the pre-increment can advance
PC past 4094. -/
theorem c9_pc_stays_uint16 (prog : List Nat) (c : Chip8)
    (h : Reach (initChip8 prog) c) : c.PC < 65536 := by
  have hinv : PCStackInv c := by
    induction h with
    | refl => exact ⟨by norm_num [initChip8], fun i => by norm_num [initChip8]⟩
    | next rnd hr ih => exact emulate_inv _ _ ih
  exact hinv.1

/-- C9 witness: `c9_pc_stays_uint16` applied to the initial state itself
(reachable in zero steps). -/
theorem c9_pc_stays_uint16_witness : (initChip8 []).PC < 65536 :=
  c9_pc_stays_uint16 [] (initChip8 []) Reach.refl

/-- C9 counterexample: the claim as stated is false — load the two-byte
program `12 01` (opcode `0x1201`, jump to 0x201).  After one step from the
initialized machine the reachable state has PC = 0x201, which is odd, so
PC does not point to an even offset before the next fetch. -/
theorem c9_jump_to_odd_address :
    Reach (initChip8 [0x12, 0x01]) (emulate_instruction 0 (initChip8 [0x12, 0x01])) ∧
    (emulate_instruction 0 (initChip8 [0x12, 0x01])).PC = 0x201 ∧
    (emulate_instruction 0 (initChip8 [0x12, 0x01])).PC % 2 = 1 :=
  ⟨Reach.next 0 Reach.refl, by decide, by decide⟩

/-- C1: every DXYN instruction draws exactly as the claim describes (see
`DrawSpec`): start at `(VX mod 64, VY mod 32)`, clip instead of wrap at
both edges, XOR each drawn bit most-significant first, and VF = 1 exactly
when a drawn bit collides with a set cell (0 otherwise, having been
zeroed before drawing). -/
theorem c1_dxyn_draw (rnd op : Nat) (c : Chip8) (ht : opT op = 13) :
    DrawSpec rnd op c := by
  have hexec : execOpcode rnd op c = execD op c := by
    unfold execOpcode
    simp [ht]
  have hdisp : (execOpcode rnd op c).display =
      (drawRows c.ram c.I (c.V (opX op) % 64) 0 (opN op)
        (c.V (opY op) % 32) c.display 0).1 := by
    rw [hexec]
    rfl
  have hvf : (execOpcode rnd op c).V 15 =
      (drawRows c.ram c.I (c.V (opX op) % 64) 0 (opN op)
        (c.V (opY op) % 32) c.display 0).2 := by
    rw [hexec]
    simp [execD, Function.update_same]
  obtain ⟨S1, S2, S3⟩ := drawRows_spec c.ram c.I (c.V (opX op) % 64)
    (Nat.mod_lt _ (by norm_num)) (opN op) 0 (opN op) (c.V (opY op) % 32)
    c.display 0 (by omega) (Nat.mod_lt _ (by norm_num))
  simp only [Nat.sub_zero, Nat.zero_add] at S1 S2 S3
  refine ⟨?_, ?_, ?_⟩
  · intro r hr cc hcc
    rw [hdisp]
    exact S1 r hr cc hcc
  · intro p hp
    rw [hdisp]
    exact S2 p hp
  · rw [hvf, S3]

/-- C1 witness: `c1_dxyn_draw` applied to the concrete opcode `0xD015`
(draw the 5-row glyph at `(V0, V1)` = (0, 0)) on `stC1`. -/
theorem c1_dxyn_draw_witness : DrawSpec 0 0xD015 stC1 :=
  c1_dxyn_draw 0 0xD015 stC1 (by decide)
